import Mathlib

/-!
Verification of the `click-utils` repository: a shallow embedding of
`click_utils/logging.py` (the `LogLevelChoice` level resolver and the
`loglevel_callback_factory` context-stashing callback) and of
`click_utils/help.py` (`EnvHelpOption` / `EnvHelpCommand`), with theorems
settling the specification's claims about them.

Strings are modelled over their character lists; the Python string
operations involved (`str.lower`, `str.replace(' ', '')`, `str.isdigit`,
`int()`, `str.upper`, `', '.join`) act on the ASCII tokens the program
deals with, and are embedded accordingly.
-/

/-- Embeds Python `dict` lookup (and `getattr`-style attribute lookup) on an
association list kept in insertion order: the first entry with the given key
wins (keys are unique in the lists built here, matching `dict` semantics). -/
def alook {κ α : Type} [DecidableEq κ] : List (κ × α) → κ → Option α
  | [], _ => none
  | (k, v) :: tl, k' => if k' = k then some v else alook tl k'

/-- Embeds Python `dict.update({k: v})` / `setattr`: if the key is present its
value is replaced in place (position preserved), otherwise the pair is
appended at the end, exactly as a Python `dict` keeps insertion order. -/
def dictUpdate {κ α : Type} [DecidableEq κ] : List (κ × α) → κ → α →
    List (κ × α)
  | [], k, v => [(k, v)]
  | (a, b) :: tl, k, v =>
    if a = k then (k, v) :: tl else (a, b) :: dictUpdate tl k v

/-- Embeds `LogLevelChoice._convert_key`: `key.lower().replace(' ', '')`,
i.e. lowercase every character and remove every space. -/
def convertKey (s : String) : String :=
  ⟨(s.data.map Char.toLower).filter (fun c => c ≠ ' ')⟩

/-- Embeds Python `str.upper()`: uppercase every character (ASCII). -/
def upperStr (s : String) : String :=
  ⟨s.data.map Char.toUpper⟩

/-- Embeds Python `str.isdigit()` on the ASCII tokens involved: true exactly
for nonempty strings all of whose characters are decimal digits. -/
def isDigitStr (s : String) : Bool :=
  !s.data.isEmpty && s.data.all Char.isDigit

/-- Embeds Python `int()` on a string of decimal digits. -/
def strToNat (s : String) : Nat :=
  s.data.foldl (fun a c => a * 10 + (c.toNat - 48)) 0

/-- Embeds `LogLevelChoice.LOGGING_LEVELS`: the six standard name/level
pairs (`logging.NOTSET` is 0, `DEBUG` 10, `INFO` 20, `WARNING` 30,
`ERROR` 40, `CRITICAL` 50). -/
def LOGGING_LEVELS : List (String × Int) :=
  [("notset", 0), ("debug", 10), ("info", 20),
   ("warning", 30), ("error", 40), ("critical", 50)]

/-- The error raised out of `LogLevelChoice.convert`: either the
`self.fail('invalid choice: ...')` of the inherited `click.Choice.convert`,
carrying the offending value and the configured choices in order, or a
Python `KeyError` from the final `self.logging_levels_dict[result]` lookup
(shown unreachable below). -/
inductive ConvertError : Type where
  | invalidChoice (value : String) (choices : List String)
  | keyMissing (key : String)
deriving DecidableEq, Repr

/-- Models `click.Choice.convert` of the `click` dependency (invoked via
`super()`): return the value if it is among the configured choices,
otherwise fail with an error carrying the offending value and the full
ordered choice list. -/
def choiceConvert (choices : List String) (value : String) :
    Except ConvertError String :=
  if value ∈ choices then .ok value
  else .error (.invalidChoice value choices)

/-- The state of a `LogLevelChoice` instance after `__init__`:
`logging_levels_dict` and `logging_level_keys`. The inherited
`click.Choice` stores `self.choices = self.logging_level_keys` (the same
list object), so the keys list doubles as the choice list. -/
structure LogLevelChoice : Type where
  logging_levels_dict : List (String × Int)
  logging_level_keys : List String
deriving DecidableEq, Repr

/-- Embeds one iteration of the `for extra_level in extra_levels` loop of
`LogLevelChoice.__init__`: look the level up in the logging facility's
level-name registry (`logging.getLevelName`, passed in as `g`), normalize
the name, update the dict and append the key to the keys list. -/
def LogLevelChoice.addLevel (g : Int → String) (r : LogLevelChoice)
    (lvl : Int) : LogLevelChoice :=
  ⟨dictUpdate r.logging_levels_dict (convertKey (g lvl)) lvl,
   r.logging_level_keys ++ [convertKey (g lvl)]⟩

/-- Embeds `LogLevelChoice.__init__`: seed the dict and keys from
`LOGGING_LEVELS`, then fold the extra levels through the loop body.
`g` is the logging facility's level-name registry lookup
(`logging.getLevelName`). -/
def LogLevelChoice.init (g : Int → String) (extra_levels : List Int) :
    LogLevelChoice :=
  extra_levels.foldl (LogLevelChoice.addLevel g)
    ⟨LOGGING_LEVELS, LOGGING_LEVELS.map Prod.fst⟩

/-- Embeds `LogLevelChoice.convert` on a string token (the form every
command-line value takes; the `isinstance(value, int)` branch re-renders an
int to its digit string): normalize, return the integer directly for an
all-digits token, otherwise validate against the choices and look the
result up in the level dict. -/
def LogLevelChoice.convert (r : LogLevelChoice) (value : String) :
    Except ConvertError Int :=
  if isDigitStr (convertKey value) then
    .ok (Int.ofNat (strToNat (convertKey value)))
  else
    match choiceConvert r.logging_level_keys (convertKey value) with
    | .error e => .error e
    | .ok result =>
      match alook r.logging_levels_dict result with
      | some v => .ok v
      | none => .error (.keyMissing result)

/-- `LogLevelChoice.convert` with the instance state threaded through
explicitly: the method body reads `self` and performs no attribute
assignment, so each branch returns the instance as it found it. Used to
state frame properties about `convert`. -/
def LogLevelChoice.convertM (r : LogLevelChoice) (value : String) :
    LogLevelChoice × Except ConvertError Int :=
  if isDigitStr (convertKey value) then
    (r, .ok (Int.ofNat (strToNat (convertKey value))))
  else
    match choiceConvert r.logging_level_keys (convertKey value) with
    | .error e => (r, .error e)
    | .ok result =>
      match alook r.logging_levels_dict result with
      | some v => (r, .ok v)
      | none => (r, .error (.keyMissing result))

/-- Models `logging.getLevelName` of the Python standard library on an
integer argument: return the registered name if the level is in the
level-to-name registry, else the string `"Level %s" % level`. -/
def getLevelNameIn (reg : List (Int × String)) (lvl : Int) : String :=
  match alook reg lvl with
  | some n => n
  | none => "Level " ++ toString lvl

/-- The standard library's initial level-to-name registry
(`logging._levelToName`). -/
def stdLevelNames : List (Int × String) :=
  [(50, "CRITICAL"), (40, "ERROR"), (30, "WARNING"),
   (20, "INFO"), (10, "DEBUG"), (0, "NOTSET")]

/-- The slice of a `click.Context` the loglevel callback touches: its
dynamically set attributes (Python objects accept arbitrary `setattr`)
and the `resilient_parsing` flag. -/
structure ClickCtx : Type where
  attrs : List (String × Int)
  resilient_parsing : Bool
deriving DecidableEq, Repr

/-- Embeds `setattr(ctx, name, value)` on the modelled context. -/
def ClickCtx.setattr (ctx : ClickCtx) (name : String) (v : Int) : ClickCtx :=
  { ctx with attrs := dictUpdate ctx.attrs name v }

/-- Embeds the `inner` closure returned by `loglevel_callback_factory`.
The factory argument `ctx_loglevel_attr` is `none` for a Python-falsy
attribute name (`None` or `False`; `some ""` also embeds the falsy empty
string). The callback's `value` is `none` when the flag was absent (click
passes `None`), `some v` when it resolved to the integer `v`; Python
`not value` is true for `None` and for `0`. The result is the context
after the call paired with the returned value (`none` embeds Python's
bare `return`). -/
def loglevelCallback (ctx_loglevel_attr : Option String) (ctx : ClickCtx)
    (value : Option Int) : ClickCtx × Option Int :=
  match value with
  | none => (ctx, none)
  | some v =>
    if v = 0 ∨ ctx.resilient_parsing then (ctx, none)
    else
      match ctx_loglevel_attr with
      | none => (ctx, some v)
      | some a => if a = "" then (ctx, some v) else (ctx.setattr a v, some v)

/-- The `envvar` attribute of a `click.Option`: Python `None`, a single
string, or a list/tuple of strings. -/
inductive EnvVarSpec : Type where
  | noneSpec
  | single (s : String)
  | multiple (l : List String)
deriving DecidableEq, Repr

/-- The slice of a `click.Option` that `EnvHelpOption` reads: its `name`,
`envvar` and `allow_from_autoenv` attributes. -/
structure EnvOpt : Type where
  name : String
  envvar : EnvVarSpec
  allow_from_autoenv : Bool
deriving DecidableEq, Repr

/-- Embeds `EnvHelpOption.get_envvar_names`: an explicitly configured
`envvar` is returned as a list; otherwise, with `allow_from_autoenv` set
and a context `auto_envvar_prefix` present, the derived name
`'%s_%s' % (prefix, self.name.upper())`; otherwise Python's implicit
`None`. `autoPfx` is the context's `auto_envvar_prefix`. -/
def EnvHelpOption.get_envvar_names (o : EnvOpt) (autoPfx : Option String) :
    Option (List String) :=
  match o.envvar with
  | .single s => some [s]
  | .multiple l => some l
  | .noneSpec =>
    if o.allow_from_autoenv then
      match autoPfx with
      | some p => some [p ++ "_" ++ upperStr o.name]
      | none => none
    else none

/-- Embeds `EnvHelpOption.get_help_record`: `base` is the record returned
by the inherited `click.Option.get_help_record` (option syntax paired with
help text). When `get_envvar_names` yields a Python-truthy (nonempty)
list, append `'[env: %s]' % ', '.join(envvars)` to the help text, with a
separating space only when the help text is nonempty. -/
def EnvHelpOption.get_help_record (base : String × String) (o : EnvOpt)
    (autoPfx : Option String) : String × String :=
  match EnvHelpOption.get_envvar_names o autoPfx with
  | some envvars =>
    if envvars.isEmpty then base
    else
      (base.1,
       base.2 ++ (if base.2 = "" then "" else " ") ++
         "[env: " ++ String.intercalate ", " envvars ++ "]")
  | none => base

/-- Embeds the effect of `EnvHelpCommand.__init__` with the default
`envhelp_patch_options=True`: every `click.Option` among the command's
params has its class rebound to `EnvHelpOption`, so the command's help
records are computed by `EnvHelpOption.get_help_record`. Each param is
paired with the record the underlying `click.Option.get_help_record`
produces for it. -/
def EnvHelpCommand.helpRecords (params : List (EnvOpt × (String × String)))
    (autoPfx : Option String) : List (String × String) :=
  params.map (fun p => EnvHelpOption.get_help_record p.2 p.1 autoPfx)

theorem alook_nil {κ α : Type} [DecidableEq κ] (k : κ) :
    alook ([] : List (κ × α)) k = none := rfl

theorem alook_cons {κ α : Type} [DecidableEq κ] (a : κ) (b : α)
    (tl : List (κ × α)) (k : κ) :
    alook ((a, b) :: tl) k = if k = a then some b else alook tl k := rfl

theorem dictUpdate_cons {κ α : Type} [DecidableEq κ] (a : κ) (b : α)
    (tl : List (κ × α)) (k : κ) (v : α) :
    dictUpdate ((a, b) :: tl) k v =
      if a = k then (k, v) :: tl else (a, b) :: dictUpdate tl k v := rfl

theorem alook_dictUpdate_self {κ α : Type} [DecidableEq κ]
    (d : List (κ × α)) (k : κ) (v : α) :
    alook (dictUpdate d k v) k = some v := by
  induction d with
  | nil => simp [dictUpdate, alook_cons]
  | cons hd tl ih =>
    obtain ⟨a, b⟩ := hd
    rw [dictUpdate_cons]
    by_cases hak : a = k
    · rw [if_pos hak, alook_cons, if_pos rfl]
    · rw [if_neg hak, alook_cons,
        if_neg (fun hh : k = a => hak hh.symm), ih]

theorem alook_dictUpdate_ne {κ α : Type} [DecidableEq κ]
    (d : List (κ × α)) (k : κ) (v : α) (k' : κ) (h : k' ≠ k) :
    alook (dictUpdate d k v) k' = alook d k' := by
  induction d with
  | nil => simp [dictUpdate, alook_cons, alook_nil, h]
  | cons hd tl ih =>
    obtain ⟨a, b⟩ := hd
    rw [dictUpdate_cons]
    by_cases hak : a = k
    · rw [if_pos hak, alook_cons, if_neg (hak ▸ h), alook_cons,
        if_neg (fun hh : k' = a => h (hak ▸ hh))]
    · rw [if_neg hak, alook_cons, alook_cons, ih]

theorem foldl_addLevel_keys (g : Int → String) (l : List Int) :
    ∀ r : LogLevelChoice,
      (l.foldl (LogLevelChoice.addLevel g) r).logging_level_keys =
        r.logging_level_keys ++ l.map (fun e => convertKey (g e)) := by
  induction l with
  | nil => intro r; simp
  | cons e tl ih =>
    intro r
    simp only [List.foldl_cons, List.map_cons, ih, LogLevelChoice.addLevel,
      List.append_assoc, List.singleton_append]

theorem foldl_addLevel_dict_ne (g : Int → String) (l : List Int) (k : String)
    (h : ∀ x ∈ l, convertKey (g x) ≠ k) :
    ∀ r : LogLevelChoice,
      alook (l.foldl (LogLevelChoice.addLevel g) r).logging_levels_dict k =
        alook r.logging_levels_dict k := by
  induction l with
  | nil => intro r; rfl
  | cons e tl ih =>
    intro r
    have he : convertKey (g e) ≠ k := h e (List.mem_cons_self e tl)
    have htl : ∀ x ∈ tl, convertKey (g x) ≠ k :=
      fun x hx => h x (List.mem_cons_of_mem e hx)
    simp only [List.foldl_cons, ih htl, LogLevelChoice.addLevel]
    exact alook_dictUpdate_ne _ _ _ _ (fun hh => he hh.symm)

theorem foldl_addLevel_isSome (g : Int → String) (l : List Int) :
    ∀ r : LogLevelChoice,
      (∀ k ∈ r.logging_level_keys, (alook r.logging_levels_dict k).isSome) →
      ∀ k ∈ (l.foldl (LogLevelChoice.addLevel g) r).logging_level_keys,
        (alook (l.foldl (LogLevelChoice.addLevel g) r).logging_levels_dict
          k).isSome := by
  induction l with
  | nil => intro r hr; simpa using hr
  | cons e tl ih =>
    intro r hr
    refine ih (LogLevelChoice.addLevel g r e) ?_
    intro k hk
    simp only [LogLevelChoice.addLevel, List.mem_append,
      List.mem_singleton] at hk
    by_cases hke : k = convertKey (g e)
    · subst hke
      simp [LogLevelChoice.addLevel, alook_dictUpdate_self]
    · rcases hk with hk | hk
      · simp only [LogLevelChoice.addLevel]
        rw [alook_dictUpdate_ne _ _ _ _ hke]
        exact hr k hk
      · exact absurd hk hke

theorem init_keys_covered (g : Int → String) (extras : List Int) :
    ∀ k ∈ (LogLevelChoice.init g extras).logging_level_keys,
      (alook (LogLevelChoice.init g extras).logging_levels_dict k).isSome := by
  refine foldl_addLevel_isSome g extras _ ?_
  intro k hk
  fin_cases hk <;> decide

theorem convert_digit (r : LogLevelChoice) (t : String)
    (h : isDigitStr (convertKey t) = true) :
    r.convert t = .ok (Int.ofNat (strToNat (convertKey t))) := by
  unfold LogLevelChoice.convert
  rw [if_pos h]

theorem convert_notmem (r : LogLevelChoice) (t : String)
    (hd : isDigitStr (convertKey t) = false)
    (hm : convertKey t ∉ r.logging_level_keys) :
    r.convert t =
      .error (.invalidChoice (convertKey t) r.logging_level_keys) := by
  have hne : ¬ isDigitStr (convertKey t) = true := by simp [hd]
  unfold LogLevelChoice.convert choiceConvert
  rw [if_neg hne, if_neg hm]

theorem convert_mem (g : Int → String) (extras : List Int) (t : String)
    (hne : ¬ isDigitStr (convertKey t) = true)
    (hm : convertKey t ∈ (LogLevelChoice.init g extras).logging_level_keys) :
    ∃ v, alook (LogLevelChoice.init g extras).logging_levels_dict
        (convertKey t) = some v ∧
      (LogLevelChoice.init g extras).convert t = .ok v := by
  have hs := init_keys_covered g extras (convertKey t) hm
  obtain ⟨v, hv⟩ := Option.isSome_iff_exists.mp hs
  refine ⟨v, hv, ?_⟩
  unfold LogLevelChoice.convert choiceConvert
  rw [if_neg hne, if_pos hm]
  dsimp only
  rw [hv]

theorem convert_no_keyMissing (g : Int → String) (extras : List Int)
    (t : String) (k : String) :
    (LogLevelChoice.init g extras).convert t ≠
      .error (.keyMissing k) := by
  by_cases hd : isDigitStr (convertKey t) = true
  · rw [convert_digit _ t hd]
    intro h
    exact Except.noConfusion h
  · by_cases hm :
      convertKey t ∈ (LogLevelChoice.init g extras).logging_level_keys
    · obtain ⟨v, _, hv⟩ := convert_mem g extras t hd hm
      rw [hv]
      intro h
      exact Except.noConfusion h
    · rw [convert_notmem _ t (Bool.not_eq_true _ ▸ hd) hm]
      intro h
      have := Except.error.inj h
      exact ConvertError.noConfusion this

theorem convertM_components (r : LogLevelChoice) (t : String) :
    (LogLevelChoice.convertM r t).1 = r ∧
      (LogLevelChoice.convertM r t).2 = r.convert t := by
  unfold LogLevelChoice.convertM LogLevelChoice.convert
  by_cases h : isDigitStr (convertKey t) = true
  · rw [if_pos h, if_pos h]
    exact ⟨rfl, rfl⟩
  · rw [if_neg h, if_neg h]
    cases choiceConvert r.logging_level_keys (convertKey t) with
    | error e => exact ⟨rfl, rfl⟩
    | ok result =>
      dsimp only
      cases alook r.logging_levels_dict result with
      | some v => exact ⟨rfl, rfl⟩
      | none => exact ⟨rfl, rfl⟩

/-- C1: for every one of the six standard level names (`notset`, `debug`,
`info`, `warning`, `error`, `critical`), in any letter case and with any
internal spaces, `LogLevelChoice.convert` first lowercases the token and
strips its spaces and then returns the documented standard integer
(notset=0, debug=10, info=20, warning=30, error=40, critical=50). Stated
for a resolver constructed with no extra levels, over tokens whose
normalization `convertKey` is the standard name. -/
theorem convert_standard_name (g : Int → String) (t : String)
    (name : String) (lvl : Int) (hmem : (name, lvl) ∈ LOGGING_LEVELS)
    (ht : convertKey t = name) :
    (LogLevelChoice.init g []).convert t = .ok lvl := by
  fin_cases hmem <;>
    simp only [LogLevelChoice.init, List.foldl_nil, LogLevelChoice.convert,
      ht] <;>
    rfl

/-- Witness for C1 at the token `"E R Ror"`, which normalizes to
`"error"` and resolves to 40. -/
theorem convert_standard_name_witness :
    ("error", (40 : Int)) ∈ LOGGING_LEVELS ∧
    convertKey "E R Ror" = "error" ∧
    (LogLevelChoice.init (getLevelNameIn stdLevelNames) []).convert
      "E R Ror" = .ok 40 :=
  ⟨by decide, by decide,
    convert_standard_name (getLevelNameIn stdLevelNames) "E R Ror"
      "error" 40 (by decide) (by decide)⟩

/-- C2: for every token whose normalized form consists entirely of digits,
`LogLevelChoice.convert` returns that integer value directly, for every
resolver (any registry, any extra levels) — the name table and choice
list are never consulted, so any such integer is accepted. -/
theorem convert_digits (g : Int → String) (extras : List Int) (t : String)
    (h : isDigitStr (convertKey t) = true) :
    (LogLevelChoice.init g extras).convert t =
      .ok (Int.ofNat (strToNat (convertKey t))) :=
  convert_digit _ t h

/-- Witness for C2 at the token `"123"` for a resolver constructed with
no extra levels: it resolves to 123 though no level 123 is known. -/
theorem convert_digits_witness :
    isDigitStr (convertKey "123") = true ∧
    (LogLevelChoice.init (getLevelNameIn stdLevelNames) []).convert "123" =
      .ok 123 :=
  ⟨by decide,
    convert_digits (getLevelNameIn stdLevelNames) [] "123" (by decide)⟩

/-- C3: for a token whose normalized form is neither all digits nor one of
the resolver's level-table keys, `LogLevelChoice.convert` fails with the
user-facing invalid-choice error that carries the offending (normalized)
token and enumerates exactly the resolver's configured choice names in
their stored order; conversely it succeeds for every token whose
normalized form is all digits or a known name. -/
theorem convert_invalid_and_valid (g : Int → String) (extras : List Int)
    (t : String) :
    (isDigitStr (convertKey t) = false →
      convertKey t ∉ (LogLevelChoice.init g extras).logging_level_keys →
      (LogLevelChoice.init g extras).convert t =
        .error (.invalidChoice (convertKey t)
          (LogLevelChoice.init g extras).logging_level_keys)) ∧
    (isDigitStr (convertKey t) = true ∨
        convertKey t ∈ (LogLevelChoice.init g extras).logging_level_keys →
      ∃ v, (LogLevelChoice.init g extras).convert t = .ok v) := by
  constructor
  · intro hd hm
    exact convert_notmem _ t hd hm
  · intro hor
    by_cases hd : isDigitStr (convertKey t) = true
    · exact ⟨_, convert_digit _ t hd⟩
    · have hm : convertKey t ∈
          (LogLevelChoice.init g extras).logging_level_keys := by
        rcases hor with hdt | hm
        · exact absurd hdt hd
        · exact hm
      obtain ⟨v, _, hv⟩ := convert_mem g extras t hd hm
      exact ⟨v, hv⟩

/-- Witness for C3 at the token `"bogus"` for a resolver constructed with
no extra levels: conversion fails with the invalid-choice error listing
the six standard names in order, and the token `"error"` succeeds. -/
theorem convert_invalid_and_valid_witness :
    isDigitStr (convertKey "bogus") = false ∧
    convertKey "bogus" ∉
      (LogLevelChoice.init (getLevelNameIn stdLevelNames)
        []).logging_level_keys ∧
    (LogLevelChoice.init (getLevelNameIn stdLevelNames) []).convert "bogus" =
      .error (.invalidChoice "bogus"
        ["notset", "debug", "info", "warning", "error", "critical"]) :=
  ⟨by decide, by decide,
    (convert_invalid_and_valid (getLevelNameIn stdLevelNames) [] "bogus").1
      (by decide) (by decide)⟩

/-- C10: after construction with any extra levels, every name in the
resolver's ordered key list is a key of its level table; hence every
non-digit token passing choice validation is resolved by a successful
table lookup, and the lookup's key-missing failure is unreachable from
`LogLevelChoice.convert`. -/
theorem keys_covered_convert_total (g : Int → String) (extras : List Int) :
    (∀ k ∈ (LogLevelChoice.init g extras).logging_level_keys,
      (alook (LogLevelChoice.init g extras).logging_levels_dict
        k).isSome = true) ∧
    (∀ t : String, isDigitStr (convertKey t) = false →
      convertKey t ∈ (LogLevelChoice.init g extras).logging_level_keys →
      ∃ v, (LogLevelChoice.init g extras).convert t = .ok v) ∧
    (∀ (t k : String),
      (LogLevelChoice.init g extras).convert t ≠
        .error (.keyMissing k)) := by
  refine ⟨init_keys_covered g extras, ?_, convert_no_keyMissing g extras⟩
  intro t hd hm
  obtain ⟨v, _, hv⟩ :=
    convert_mem g extras t (by simp [hd]) hm
  exact ⟨v, hv⟩

/-- Witness for C10: for the resolver with extra level 102 (named in the
registry), the key `"mytestlevel"` is in the ordered key list and its
table lookup succeeds. -/
theorem keys_covered_convert_total_witness :
    "mytestlevel" ∈
      (LogLevelChoice.init
        (getLevelNameIn ((102, "My test level") :: stdLevelNames))
        [102]).logging_level_keys ∧
    (alook (LogLevelChoice.init
        (getLevelNameIn ((102, "My test level") :: stdLevelNames))
        [102]).logging_levels_dict "mytestlevel").isSome = true :=
  ⟨by decide,
    (keys_covered_convert_total
      (getLevelNameIn ((102, "My test level") :: stdLevelNames)) [102]).1
      "mytestlevel" (by decide)⟩

/-- Counterexample to C4 as stated: with registry entries naming both 101
and 102 `"X"` (as `logging.addLevelName` permits), constructing with
extra levels `[101, 102]` leaves the normalized key of extra level 101
mapped to 102, not to 101 — the table entry was overwritten by the later
colliding extra level. -/
theorem extra_key_last_wins_cex :
    alook (LogLevelChoice.init
        (getLevelNameIn [((101 : Int), "X"), (102, "X")])
        [101, 102]).logging_levels_dict
      (convertKey (getLevelNameIn [((101 : Int), "X"), (102, "X")] 101)) ≠
      some 101 := by decide

/-- C4 (amended): each extra level's display name is obtained from the
level-name registry and normalized; the normalized key maps in the level
table to that integer provided no later-supplied extra level normalizes
to the same key (the last colliding extra wins); and the ordered key list
is exactly the six standard names followed by the normalized extra names
in the order supplied. -/
theorem extra_levels_table_and_keys (g : Int → String) (l₁ l₂ : List Int)
    (e : Int) (h : ∀ x ∈ l₂, convertKey (g x) ≠ convertKey (g e)) :
    alook (LogLevelChoice.init g (l₁ ++ e :: l₂)).logging_levels_dict
        (convertKey (g e)) = some e ∧
    (LogLevelChoice.init g (l₁ ++ e :: l₂)).logging_level_keys =
      LOGGING_LEVELS.map Prod.fst ++
        (l₁ ++ e :: l₂).map (fun x => convertKey (g x)) := by
  constructor
  · have hsplit : l₁ ++ e :: l₂ = (l₁ ++ [e]) ++ l₂ := by simp
    rw [hsplit]
    unfold LogLevelChoice.init
    rw [List.foldl_append, foldl_addLevel_dict_ne g l₂ _ h,
      List.foldl_append]
    simp only [List.foldl_cons, List.foldl_nil]
    exact alook_dictUpdate_self _ _ _
  · unfold LogLevelChoice.init
    exact foldl_addLevel_keys g _ _

/-- Witness for C4 (amended) at extra level 102 registered as
`"My test level"`: the key `"mytestlevel"` resolves to 102 in the table
and the key list is the six standard names followed by it. -/
theorem extra_levels_table_and_keys_witness :
    (∀ x ∈ ([] : List Int),
      convertKey (getLevelNameIn ((102, "My test level") :: stdLevelNames)
          x) ≠
        convertKey (getLevelNameIn ((102, "My test level") :: stdLevelNames)
          102)) ∧
    convertKey (getLevelNameIn ((102, "My test level") :: stdLevelNames)
      102) = "mytestlevel" ∧
    alook (LogLevelChoice.init
        (getLevelNameIn ((102, "My test level") :: stdLevelNames))
        ([] ++ 102 :: [])).logging_levels_dict
      (convertKey (getLevelNameIn ((102, "My test level") :: stdLevelNames)
        102)) = some 102 :=
  ⟨by simp, by decide,
    (extra_levels_table_and_keys
      (getLevelNameIn ((102, "My test level") :: stdLevelNames))
      [] [] 102 (by simp)).1⟩

/-- Counterexample to C5 as stated: re-adding the standard level 10
(registry name `"DEBUG"`) as an extra level leaves `"debug"` appearing
twice in the ordered key list — the colliding key IS duplicated, because
`__init__` appends it unconditionally. -/
theorem collision_key_duplicated_cex :
    ¬ ((LogLevelChoice.init (getLevelNameIn stdLevelNames)
        [10]).logging_level_keys.count "debug" ≤ 1) := by decide

/-- C5 (amended): for an extra level whose normalized name collides with a
name already present, construction silently overwrites that name's entry
in the level table with the new integer, and appends the colliding key to
the ordered key list again — so the key's multiplicity in the list grows
by one and the name can appear more than once. -/
theorem collision_overwrites_and_appends (g : Int → String) (ks : List Int)
    (e : Int) :
    alook (LogLevelChoice.init g (ks ++ [e])).logging_levels_dict
        (convertKey (g e)) = some e ∧
    (LogLevelChoice.init g (ks ++ [e])).logging_level_keys =
      (LogLevelChoice.init g ks).logging_level_keys ++ [convertKey (g e)] ∧
    (LogLevelChoice.init g (ks ++ [e])).logging_level_keys.count
        (convertKey (g e)) =
      (LogLevelChoice.init g ks).logging_level_keys.count
        (convertKey (g e)) + 1 := by
  have hinit : LogLevelChoice.init g (ks ++ [e]) =
      LogLevelChoice.addLevel g (LogLevelChoice.init g ks) e := by
    unfold LogLevelChoice.init
    rw [List.foldl_append]
    rfl
  rw [hinit]
  refine ⟨alook_dictUpdate_self _ _ _, rfl, ?_⟩
  show ((LogLevelChoice.init g ks).logging_level_keys ++
    [convertKey (g e)]).count (convertKey (g e)) = _ + 1
  rw [List.count_append]
  simp

/-- C9: a resolver is immutable after construction: `convert` (stated on
its state-threaded form `convertM`) leaves the instance exactly as it
was, any sequence of conversions in any order leaves it unchanged, and
the value `convert` computes is a function of the constructed state
alone. -/
theorem convert_pure (r : LogLevelChoice) (ts : List String) (t : String) :
    ts.foldl (fun s u => (LogLevelChoice.convertM s u).1) r = r ∧
    (LogLevelChoice.convertM r t).1 = r ∧
    (LogLevelChoice.convertM r t).2 = r.convert t := by
  refine ⟨?_, (convertM_components r t).1, (convertM_components r t).2⟩
  induction ts with
  | nil => rfl
  | cons u tl ih =>
    rw [List.foldl_cons, (convertM_components r u).1]
    exact ih

/-- C7: a resolved value of 0 (the `notset` level) is treated by the
loglevel callback exactly like an absent flag: the callback returns
nothing, sets no context attribute, and its outcome is indistinguishable
from that of an invocation where the flag was never supplied. -/
theorem callback_zero_as_absent (attr : Option String) (ctx : ClickCtx) :
    loglevelCallback attr ctx (some 0) = (ctx, none) ∧
    loglevelCallback attr ctx (some 0) = loglevelCallback attr ctx none := by
  constructor <;> simp [loglevelCallback]

/-- Counterexample to C6 as stated: with the flag supplied as the resolved
value 0 and resilient parsing off, the callback returns nothing and sets
no attribute (Python `not value` is true for 0), instead of stashing 0
and passing it through. -/
theorem callback_supplied_zero_cex :
    loglevelCallback (some "click_utils_loglevel") ⟨[], false⟩ (some 0) =
      (⟨[], false⟩, none) ∧
    ((⟨[], false⟩, none) : ClickCtx × Option Int) ≠
      (ClickCtx.setattr ⟨[], false⟩ "click_utils_loglevel" 0, some 0) := by
  exact ⟨rfl, by decide⟩

/-- C6 (amended): for a callback configured with a (nonempty) context
attribute name, when the flag was supplied with a non-zero resolved value
and resilient parsing is off, it sets exactly the configured attribute to
that value (all other attributes unchanged) and returns the value
unchanged; when the flag was absent, the value resolved to 0, or
resilient parsing is active, it returns nothing and leaves the context
untouched. -/
theorem callback_contract (a : String) (ha : a ≠ "") (ctx : ClickCtx)
    (v : Option Int) :
    ((∃ x, v = some x ∧ x ≠ 0) → ctx.resilient_parsing = false →
      ∃ x, v = some x ∧
        loglevelCallback (some a) ctx v = (ctx.setattr a x, some x) ∧
        alook (ctx.setattr a x).attrs a = some x ∧
        (∀ k, k ≠ a →
          alook (ctx.setattr a x).attrs k = alook ctx.attrs k)) ∧
    ((v = none ∨ v = some 0 ∨ ctx.resilient_parsing = true) →
      loglevelCallback (some a) ctx v = (ctx, none)) := by
  constructor
  · rintro ⟨x, rfl, hx⟩ hres
    have hcond : ¬ (x = 0 ∨ ctx.resilient_parsing = true) := by
      rintro (h0 | hr)
      · exact hx h0
      · rw [hres] at hr
        exact Bool.noConfusion hr
    refine ⟨x, rfl, ?_, ?_, ?_⟩
    · unfold loglevelCallback
      dsimp only
      rw [if_neg hcond, if_neg ha]
    · exact alook_dictUpdate_self _ _ _
    · intro k hk
      exact alook_dictUpdate_ne _ _ _ _ hk
  · rintro (rfl | rfl | hr)
    · rfl
    · simp [loglevelCallback]
    · unfold loglevelCallback
      cases v with
      | none => rfl
      | some x =>
        dsimp only
        rw [if_pos (Or.inr hr)]

/-- Witness for C6 (amended): supplying value 40 with resilient parsing
off stashes 40 under `click_utils_loglevel` and passes 40 through. -/
theorem callback_contract_witness :
    ("click_utils_loglevel" : String) ≠ "" ∧
    (∃ x, (some 40 : Option Int) = some x ∧ x ≠ 0) ∧
    (⟨[], false⟩ : ClickCtx).resilient_parsing = false ∧
    (∃ x, (some 40 : Option Int) = some x ∧
      loglevelCallback (some "click_utils_loglevel") ⟨[], false⟩ (some 40) =
        (ClickCtx.setattr ⟨[], false⟩ "click_utils_loglevel" x, some x) ∧
      alook (ClickCtx.setattr ⟨[], false⟩ "click_utils_loglevel" x).attrs
        "click_utils_loglevel" = some x ∧
      (∀ k, k ≠ "click_utils_loglevel" →
        alook (ClickCtx.setattr ⟨[], false⟩ "click_utils_loglevel" x).attrs
          k = alook (⟨[], false⟩ : ClickCtx).attrs k)) :=
  ⟨by decide, ⟨40, rfl, by decide⟩, rfl,
    (callback_contract "click_utils_loglevel" (by decide) ⟨[], false⟩
      (some 40)).1 ⟨40, rfl, by decide⟩ rfl⟩

/-- C8: for every option of an `EnvHelpCommand` (whose params are help-
rendered through `EnvHelpOption.get_help_record`), an environment variable
configured directly (single or list form) or derived from the auto-envvar
prefix and the option name yields the underlying help record with
`[env: <name1>, <name2>, ...]` appended to its description, separated by
a space exactly when the underlying description is nonempty; an option
with no environment variable and no auto-envvar prefix keeps its record
unchanged. -/
theorem envhelp_record (params : List (EnvOpt × (String × String)))
    (autoPfx : Option String) (o : EnvOpt) (base : String × String)
    (hmem : (o, base) ∈ params) :
    EnvHelpOption.get_help_record base o autoPfx ∈
      EnvHelpCommand.helpRecords params autoPfx ∧
    (∀ s, o.envvar = .single s →
      EnvHelpOption.get_help_record base o autoPfx =
        (base.1, base.2 ++ (if base.2 = "" then "" else " ") ++
          "[env: " ++ s ++ "]")) ∧
    (∀ l, o.envvar = .multiple l → l ≠ [] →
      EnvHelpOption.get_help_record base o autoPfx =
        (base.1, base.2 ++ (if base.2 = "" then "" else " ") ++
          "[env: " ++ String.intercalate ", " l ++ "]")) ∧
    (∀ p, o.envvar = .noneSpec → o.allow_from_autoenv = true →
      autoPfx = some p →
      EnvHelpOption.get_help_record base o autoPfx =
        (base.1, base.2 ++ (if base.2 = "" then "" else " ") ++
          "[env: " ++ (p ++ "_" ++ upperStr o.name) ++ "]")) ∧
    (o.envvar = .noneSpec → autoPfx = none →
      EnvHelpOption.get_help_record base o autoPfx = base) := by
  refine ⟨List.mem_map.mpr ⟨(o, base), hmem, rfl⟩, ?_, ?_, ?_, ?_⟩
  · intro s hs
    unfold EnvHelpOption.get_help_record EnvHelpOption.get_envvar_names
    rw [hs]
    dsimp only
    rw [if_neg (by simp)]
    have h1 : String.intercalate ", " [s] = s := rfl
    rw [h1]
  · intro l hl hne
    unfold EnvHelpOption.get_help_record EnvHelpOption.get_envvar_names
    rw [hl]
    dsimp only
    rw [if_neg (by simp [hne])]
  · intro p hs hallow hpfx
    unfold EnvHelpOption.get_help_record EnvHelpOption.get_envvar_names
    rw [hs, hpfx]
    dsimp only
    rw [if_pos hallow]
    dsimp only
    rw [if_neg (by simp)]
    have h1 : String.intercalate ", " [p ++ "_" ++ upperStr o.name] =
        p ++ "_" ++ upperStr o.name := rfl
    rw [h1]
  · intro hs hpfx
    unfold EnvHelpOption.get_help_record EnvHelpOption.get_envvar_names
    rw [hs, hpfx]
    dsimp only
    cases hallow : o.allow_from_autoenv <;> simp

/-- Witness for C8: a `--loglevel` option with no direct envvar, under
auto-envvar prefix `"APP"`, renders its help record with
`[env: APP_LOGLEVEL]` appended after a space. -/
theorem envhelp_record_witness :
    ((⟨"loglevel", .noneSpec, true⟩ : EnvOpt),
        (("--loglevel TEXT", "Set the level.") : String × String)) ∈
      [((⟨"loglevel", .noneSpec, true⟩ : EnvOpt),
        (("--loglevel TEXT", "Set the level.") : String × String))] ∧
    EnvHelpOption.get_help_record ("--loglevel TEXT", "Set the level.")
        ⟨"loglevel", .noneSpec, true⟩ (some "APP") =
      ("--loglevel TEXT", "Set the level. [env: APP_LOGLEVEL]") := by
  refine ⟨by decide, ?_⟩
  have h := (envhelp_record
    [((⟨"loglevel", .noneSpec, true⟩ : EnvOpt),
      (("--loglevel TEXT", "Set the level.") : String × String))]
    (some "APP") ⟨"loglevel", .noneSpec, true⟩
    ("--loglevel TEXT", "Set the level.")
    (by decide)).2.2.2.1 "APP" rfl rfl rfl
  rw [h]
  decide
